import Mathlib

/-!
Verification of the HTML-injecting reverse proxy (`server.js`).

Strings are modelled as `List Char` (JavaScript strings are sequences of
code units; all configuration and bodies relevant to the claims are plain
text, so a character-level model is faithful).  The JavaScript string
methods used by the source — `trim`, `toLowerCase`, `includes`, `indexOf`,
`replace` (with its `$`-substitution patterns), `split`/`join` — are each
given an executable definition below, and the functions of `server.js`
(`injectIntoHtml`, the `responseInterceptor` callback, `isExcludedPath`,
and the environment-to-configuration resolution of lines 15-91) are
translated on top of them.
-/

/-- Whitespace in the sense of `String.prototype.trim` (ECMAScript
WhiteSpace and LineTerminator code points). -/
def isJsWhitespace (c : Char) : Bool :=
  c.toNat = 9 || c.toNat = 10 || c.toNat = 11 || c.toNat = 12 || c.toNat = 13 ||
  c.toNat = 32 || c.toNat = 160 || c.toNat = 0x1680 ||
  (0x2000 ≤ c.toNat && c.toNat ≤ 0x200A) ||
  c.toNat = 0x2028 || c.toNat = 0x2029 || c.toNat = 0x202F || c.toNat = 0x205F ||
  c.toNat = 0x3000 || c.toNat = 0xFEFF

/-- JavaScript `s.trim()`: drop whitespace from both ends. -/
def jsTrim (s : List Char) : List Char :=
  ((s.dropWhile isJsWhitespace).reverse.dropWhile isJsWhitespace).reverse

/-- JavaScript `s.toLowerCase()` (character-wise lowercasing; the
configuration values compared by the source are ASCII). -/
def jsToLowerCase (s : List Char) : List Char :=
  s.map Char.toLower

/-- JavaScript `a || b` on strings: the empty string is falsy. -/
def jsOr (v default : List Char) : List Char :=
  if v = [] then default else v

/-- JavaScript `hay.indexOf(needle)` restricted to a successful result:
the position of the first (leftmost) occurrence of `needle` in `hay`,
`none` when there is none.  `indexOf` of the empty string is `some 0`. -/
def indexOfSub (hay needle : List Char) : Option Nat :=
  if needle.isPrefixOf hay then some 0
  else
    match hay with
    | [] => none
    | _ :: rest => (indexOfSub rest needle).map (fun i => i + 1)

/-- JavaScript `hay.includes(needle)`. -/
def jsIncludes (hay needle : List Char) : Bool :=
  (indexOfSub hay needle).isSome

/-- ECMAScript `GetSubstitution` for a string (non-regex) search value:
the replacement template is scanned for `$$`, `$&` (matched substring),
`$` followed by code unit 96 (the portion preceding the match) and `$`
followed by code unit 39 (the portion following the match); every other
`$` is passed through literally (there are no capture groups). -/
def getSubstitution (matched before after : List Char) : List Char → List Char
  | [] => []
  | [c] => [c]
  | c :: d :: rest =>
    if c = '$' then
      if d = '$' then '$' :: getSubstitution matched before after rest
      else if d = '&' then matched ++ getSubstitution matched before after rest
      else if d.toNat = 96 then before ++ getSubstitution matched before after rest
      else if d.toNat = 39 then after ++ getSubstitution matched before after rest
      else '$' :: getSubstitution matched before after (d :: rest)
    else c :: getSubstitution matched before after (d :: rest)

/-- JavaScript `hay.replace(searchValue, replaceValue)` with a string
search value: replace the first occurrence, feeding `replaceValue`
through `GetSubstitution`. -/
def jsReplace (hay searchValue replaceValue : List Char) : List Char :=
  match indexOfSub hay searchValue with
  | none => hay
  | some i =>
      hay.take i ++
      getSubstitution searchValue (hay.take i) (hay.drop (i + searchValue.length)) replaceValue ++
      hay.drop (i + searchValue.length)

/-- Fuelled worker for `jsSplit` (the fuel only serves termination; the
wrapper supplies `hay.length + 1`, which is always enough for a non-empty
separator since every cut consumes at least one character). -/
def jsSplitFuel (sep : List Char) : Nat → List Char → List (List Char)
  | 0, hay => [hay]
  | fuel + 1, hay =>
    match indexOfSub hay sep with
    | none => [hay]
    | some i => hay.take i :: jsSplitFuel sep fuel (hay.drop (i + sep.length))

/-- JavaScript `hay.split(sep)` with a string separator: cut at each
non-overlapping occurrence, scanning left to right; splitting on the
empty string yields the list of single characters. -/
def jsSplit (hay sep : List Char) : List (List Char) :=
  if sep = [] then hay.map (fun c => [c]) else jsSplitFuel sep (hay.length + 1) hay

/-- Result of `injectIntoHtml`: the `{ out, changed }` object of the
source. -/
structure InjectResult where
  out : List Char
  changed : Bool
deriving DecidableEq, Repr

/-- The resolved configuration constants of `server.js` lines 30-68 that
the injection pipeline reads (port, upstream and health path play no role
in the claims). -/
structure Config where
  INJECT_HTML : List Char
  INJECT_TARGET : List Char
  INJECT_MODE : List Char
  INJECT_ONCE : Bool
  CT_MATCH : List Char
  INJECT_IF_HEADER : List Char
deriving DecidableEq, Repr

/-- The raw environment strings feeding the configuration (an unset
variable behaves like the empty string under JavaScript `||`). -/
structure Env where
  INJECT_HTML : List Char
  INJECT_TARGET : List Char
  INJECT_MODE : List Char
  INJECT_ONCE : List Char
  INJECT_CT_MATCH : List Char
  INJECT_IF_HEADER : List Char
deriving DecidableEq, Repr

/-- Default injection payload (line 30-32 of the source). -/
def DEFAULT_INJECT_HTML : List Char :=
  ("<script defer src=\"https://analytics.kahiether.com/script.js\" data-website-id=\"xxxx\"></script>").data

/-- Environment-to-configuration resolution, lines 30-68 of the source:
`INJECT_HTML = env || default`, `INJECT_TARGET = env || \x22</head>\x22`,
`INJECT_MODE = (env || \x22before\x22).toLowerCase()`,
`INJECT_ONCE = (env || \x22true\x22).toLowerCase() === \x22true\x22`,
`CT_MATCH = (env || \x22text/html\x22).toLowerCase()`,
`INJECT_IF_HEADER = (env || \x22\x22).toLowerCase()`. -/
def Config.ofEnv (e : Env) : Config where
  INJECT_HTML := jsOr e.INJECT_HTML DEFAULT_INJECT_HTML
  INJECT_TARGET := jsOr e.INJECT_TARGET (("</head>").data)
  INJECT_MODE := jsToLowerCase (jsOr e.INJECT_MODE (("before").data))
  INJECT_ONCE := decide (jsToLowerCase (jsOr e.INJECT_ONCE (("true").data)) = ("true").data)
  CT_MATCH := jsToLowerCase (jsOr e.INJECT_CT_MATCH (("text/html").data))
  INJECT_IF_HEADER := jsToLowerCase (jsOr e.INJECT_IF_HEADER [])

/-- `injectIntoHtml` (lines 100-116 of the source).  The guards are the
source's truthiness tests: `!INJECT_HTML.trim()` and
`!html.includes(INJECT_TARGET)`; `payload` is the insertion unit; with
`INJECT_ONCE` the first occurrence is replaced via `String.replace`,
otherwise every occurrence via `split`/`join`; `changed` is the actual
comparison `out !== html`. -/
def injectIntoHtml (cfg : Config) (html : List Char) : InjectResult :=
  if jsTrim cfg.INJECT_HTML = [] then ⟨html, false⟩
  else if jsIncludes html cfg.INJECT_TARGET = false then ⟨html, false⟩
  else
    let payload :=
      if cfg.INJECT_MODE = ("after").data then cfg.INJECT_TARGET ++ cfg.INJECT_HTML
      else cfg.INJECT_HTML ++ cfg.INJECT_TARGET
    if cfg.INJECT_ONCE then
      let out := jsReplace html cfg.INJECT_TARGET payload
      ⟨out, decide (out ≠ html)⟩
    else
      let out := List.intercalate payload (jsSplit html cfg.INJECT_TARGET)
      ⟨out, decide (out ≠ html)⟩

/-- A response-header object: association list from header name to value
(the order models JavaScript object key order; keys are unique in a Node
header object, and the definitions below only rely on first-match
lookup). -/
abbrev HeaderMap := List (List Char × List Char)

/-- JavaScript property assignment `headers[k] = v`: overwrite the
existing key or add a new one. -/
def jsSetHeader (headers : HeaderMap) (k v : List Char) : HeaderMap :=
  if headers.any (fun p => p.1 = k) then
    headers.map (fun p => if p.1 = k then (k, v) else p)
  else headers ++ [(k, v)]

/-- `Buffer.byteLength(s, "utf8")`: the byte length of the UTF-8
encoding of `s`, as opposed to its character count. -/
def utf8ByteLength (s : List Char) : Nat :=
  (s.map Char.utf8Size).sum

/-- The `responseInterceptor` callback, lines 141-164 of the source.  The
buffered body is modelled as its decoded text (the source decodes with
`buffer.toString("utf8")` and re-encodes the returned string), and the
result pairs the forwarded body with the possibly-rewritten headers.
Guard by guard: the request-time skip flag, the content-type substring
filter (`CT_MATCH` is truthy iff non-empty), the optional
required-header-presence filter over lowercased key names, then the
injection, rewriting `content-length` only when `changed` is true. -/
def interceptorBody (cfg : Config) (skipInject : Bool) (headers : HeaderMap)
    (buffer : List Char) : List Char × HeaderMap :=
  if skipInject then (buffer, headers)
  else
    let ct := jsToLowerCase ((List.lookup (("content-type").data) headers).getD [])
    if cfg.CT_MATCH ≠ [] ∧ jsIncludes ct cfg.CT_MATCH = false then (buffer, headers)
    else if cfg.INJECT_IF_HEADER ≠ [] ∧
        ((headers.map (fun p => jsToLowerCase p.1)).contains cfg.INJECT_IF_HEADER) = false then
      (buffer, headers)
    else
      let r := injectIntoHtml cfg buffer
      if r.changed = false then (buffer, headers)
      else (r.out, jsSetHeader headers (("content-length").data) ((Nat.repr (utf8ByteLength r.out)).data))

/-- `isExcludedPath` (lines 93-95): the compiled exclusion regexes are
modelled as Boolean predicates on the path; the function is their
disjunction over the pattern list. -/
def isExcludedPath (patterns : List (List Char → Bool)) (path : List Char) : Bool :=
  patterns.any (fun rx => rx path)

/-- The two-phase pipeline for one request: `onProxyReq` (line 138)
computes `req.__skipInject = isExcludedPath(req.url)` at request time,
and the response interceptor consumes that flag. -/
def handleResponse (cfg : Config) (patterns : List (List Char → Bool)) (url : List Char)
    (headers : HeaderMap) (buffer : List Char) : List Char × HeaderMap :=
  interceptorBody cfg (isExcludedPath patterns url) headers buffer

/-- `intercalate` on a one-piece list is that piece. -/
theorem intercalate_single (sep x : List Char) : List.intercalate sep [x] = x := by
  simp [List.intercalate]

/-- `intercalate` peels its first piece when more pieces follow. -/
theorem intercalate_cons (sep x : List Char) {xs : List (List Char)} (h : xs ≠ []) :
    List.intercalate sep (x :: xs) = x ++ sep ++ List.intercalate sep xs := by
  obtain ⟨y, ys, rfl⟩ := List.exists_cons_of_ne_nil h
  simp [List.intercalate, List.intersperse_cons_cons, List.append_assoc]

/-- A successful `indexOf` splits the haystack as
`prefix ++ needle ++ suffix` with the prefix of length `i`. -/
theorem indexOfSub_spec {needle : List Char} :
    ∀ {hay : List Char} {i : Nat}, indexOfSub hay needle = some i →
      ∃ pre post, hay = pre ++ needle ++ post ∧ pre.length = i := by
  intro hay
  induction hay with
  | nil =>
    intro i h
    simp only [indexOfSub] at h
    by_cases hp : needle.isPrefixOf ([] : List Char)
    · rw [if_pos hp] at h
      have hn : needle = [] := by
        have := List.isPrefixOf_iff_prefix.mp hp
        simpa using this
      exact ⟨[], [], by simp [hn], by simpa using h⟩
    · rw [if_neg hp] at h
      exact absurd h (by simp)
  | cons c rest ih =>
    intro i h
    simp only [indexOfSub] at h
    by_cases hp : needle.isPrefixOf (c :: rest)
    · rw [if_pos hp] at h
      obtain ⟨t, ht⟩ := List.isPrefixOf_iff_prefix.mp hp
      refine ⟨[], t, by simp [ht], ?_⟩
      simpa using (Option.some.injEq .. ▸ h :)
    · rw [if_neg hp] at h
      obtain ⟨j, hj, hij⟩ := Option.map_eq_some'.mp h
      obtain ⟨pre, post, hr, hl⟩ := ih hj
      exact ⟨c :: pre, post, by simp [hr], by simp [hl, hij]⟩

/-- The `take`/`drop` reading of a successful `indexOf`: the haystack is
recovered from the match position, and the prefix really has length `i`. -/
theorem indexOfSub_decomp {hay needle : List Char} {i : Nat}
    (h : indexOfSub hay needle = some i) :
    hay = hay.take i ++ needle ++ hay.drop (i + needle.length) ∧ (hay.take i).length = i := by
  obtain ⟨pre, post, rfl, rfl⟩ := indexOfSub_spec h
  have htake : (pre ++ needle ++ post).take pre.length = pre := by
    rw [List.append_assoc]
    exact List.take_left pre (needle ++ post)
  have hdrop : (pre ++ needle ++ post).drop (pre.length + needle.length) = post :=
    List.drop_left' (by simp)
  rw [htake, hdrop]
  exact ⟨rfl, rfl⟩

/-- After cutting a non-empty separator occurrence out, strictly fewer
characters remain. -/
theorem indexOfSub_drop_length_lt {hay sep : List Char} {i : Nat}
    (h : indexOfSub hay sep = some i) (hsep : sep ≠ []) :
    (hay.drop (i + sep.length)).length < hay.length := by
  obtain ⟨hdec, hlen⟩ := indexOfSub_decomp h
  have hpos : 0 < sep.length := List.length_pos.mpr hsep
  conv_rhs => rw [hdec]
  simp only [List.length_append, hlen]
  omega

/-- `jsSplitFuel` always produces at least one piece. -/
theorem jsSplitFuel_ne_nil (sep : List Char) (fuel : Nat) (hay : List Char) :
    jsSplitFuel sep fuel hay ≠ [] := by
  cases fuel with
  | zero => simp [jsSplitFuel]
  | succ f =>
    simp only [jsSplitFuel]
    cases indexOfSub hay sep <;> simp

/-- Joining the pieces of `split` with the separator restores the string
(for a non-empty separator, given enough fuel). -/
theorem intercalate_jsSplitFuel {sep : List Char} (hsep : sep ≠ []) :
    ∀ (fuel : Nat) (hay : List Char), hay.length < fuel →
      List.intercalate sep (jsSplitFuel sep fuel hay) = hay := by
  intro fuel
  induction fuel with
  | zero => intro hay h; omega
  | succ f ih =>
    intro hay h
    simp only [jsSplitFuel]
    cases hidx : indexOfSub hay sep with
    | none => exact intercalate_single sep hay
    | some i =>
      have hlt : (hay.drop (i + sep.length)).length < f := by
        have := indexOfSub_drop_length_lt hidx hsep
        omega
      rw [intercalate_cons sep _ (jsSplitFuel_ne_nil sep f _), ih _ hlt]
      exact (indexOfSub_decomp hidx).1.symm

/-- Reading off the first piece of a `split` that found the separator:
the match is at position `a.length`, the first piece is the prefix there,
and rejoining the remaining pieces reproduces the rest of the string. -/
theorem jsSplit_cons_of_ne {hay sep a : List Char} {ps : List (List Char)}
    (hsep : sep ≠ []) (h : jsSplit hay sep = a :: ps) (hps : ps ≠ []) :
    indexOfSub hay sep = some a.length ∧
    hay.take a.length = a ∧
    List.intercalate sep ps = hay.drop (a.length + sep.length) := by
  rw [jsSplit, if_neg hsep] at h
  simp only [jsSplitFuel] at h
  obtain ⟨o, ho⟩ : ∃ o, indexOfSub hay sep = o := ⟨_, rfl⟩
  rw [ho] at h
  cases o with
  | none => simp at h; exact absurd h.2 hps
  | some i =>
    injection h with ha hp
    have hlen := (indexOfSub_decomp ho).2
    have hal : a.length = i := by rw [← ha]; exact hlen
    refine ⟨by rw [ho, hal], by rw [hal]; exact ha, ?_⟩
    rw [← hp, hal]
    exact intercalate_jsSplitFuel hsep hay.length _ (indexOfSub_drop_length_lt ho hsep)

/-- A `split` with at least two pieces means the separator occurs. -/
theorem jsIncludes_true_of_split {hay sep a : List Char} {ps : List (List Char)}
    (hsep : sep ≠ []) (h : jsSplit hay sep = a :: ps) (hps : ps ≠ []) :
    jsIncludes hay sep = true := by
  have := (jsSplit_cons_of_ne hsep h hps).1
  simp [jsIncludes, this]

/-- `GetSubstitution` is the identity on a replacement template that
contains no dollar sign. -/
theorem getSubstitution_eq_of_not_mem (matched before after : List Char) :
    ∀ (repl : List Char), '$' ∉ repl →
      getSubstitution matched before after repl = repl := by
  intro repl
  induction repl with
  | nil => intro _; simp [getSubstitution]
  | cons c rest ih =>
    intro h
    have hc : c ≠ '$' := fun hc => h (hc ▸ List.mem_cons_self c rest)
    have hr : '$' ∉ rest := fun hm => h (List.mem_cons_of_mem c hm)
    cases rest with
    | nil => simp [getSubstitution]
    | cons d rest2 =>
      simp only [getSubstitution, if_neg hc]
      rw [ih hr]

/-- `String.replace` on a string whose `split` found the separator, for a
dollar-free replacement: the first piece, the replacement, then the rest
rejoined. -/
theorem jsReplace_of_split {hay sep a repl : List Char} {ps : List (List Char)}
    (hsep : sep ≠ []) (h : jsSplit hay sep = a :: ps) (hps : ps ≠ [])
    (hrep : '$' ∉ repl) :
    jsReplace hay sep repl = a ++ repl ++ List.intercalate sep ps := by
  obtain ⟨hidx, htake, hic⟩ := jsSplit_cons_of_ne hsep h hps
  simp only [jsReplace, hidx]
  rw [getSubstitution_eq_of_not_mem _ _ _ repl hrep, htake, hic]

/-- Overwriting an existing key makes it look up to the new value. -/
theorem lookup_map_overwrite (k v : List Char) :
    ∀ (hs : HeaderMap), hs.any (fun p => p.1 = k) = true →
      List.lookup k (hs.map (fun p => if p.1 = k then (k, v) else p)) = some v := by
  intro hs
  induction hs with
  | nil => intro h; simp at h
  | cons q t ih =>
    obtain ⟨qk, qv⟩ := q
    intro hany
    by_cases hq : qk = k
    · subst hq
      simp [List.lookup_cons]
    · have ht : t.any (fun p => p.1 = k) = true := by simpa [hq] using hany
      have hne : (k == qk) = false := beq_eq_false_iff_ne.mpr (Ne.symm hq)
      simp only [List.map_cons, List.lookup_cons, hq, if_false, ite_false, hne]
      exact ih ht

/-- Appending a fresh key makes it look up to the new value. -/
theorem lookup_append_fresh (k v : List Char) :
    ∀ (hs : HeaderMap), hs.any (fun p => p.1 = k) = false →
      List.lookup k (hs ++ [(k, v)]) = some v := by
  intro hs
  induction hs with
  | nil => intro _; simp [List.lookup]
  | cons q t ih =>
    obtain ⟨qk, qv⟩ := q
    intro hany
    have hq : qk ≠ k := by
      intro hqe
      simp [hqe] at hany
    have ht : t.any (fun p => p.1 = k) = false := by simpa [hq] using hany
    have hne : (k == qk) = false := beq_eq_false_iff_ne.mpr (Ne.symm hq)
    simp only [List.cons_append, List.lookup_cons, hne]
    exact ih ht

/-- `headers[k] = v` makes `headers[k]` read back `v`. -/
theorem lookup_jsSetHeader (hs : HeaderMap) (k v : List Char) :
    List.lookup k (jsSetHeader hs k v) = some v := by
  rw [jsSetHeader]
  split
  · exact lookup_map_overwrite k v hs (by assumption)
  · rename_i hna
    have hfa : hs.any (fun p => p.1 = k) = false := by
      cases hb : hs.any (fun p => p.1 = k) with
      | false => rfl
      | true => exact absurd hb hna
    exact lookup_append_fresh k v hs hfa

/-- The resolved marker is never the empty string: an unset or empty
`INJECT_TARGET` falls back to the default. -/
theorem ofEnv_INJECT_TARGET_ne_nil (e : Env) : (Config.ofEnv e).INJECT_TARGET ≠ [] := by
  simp only [Config.ofEnv, jsOr]
  split
  · decide
  · assumption

/-- `injectIntoHtml` ignores everything about the placement mode except
whether it equals the string `after`; two configurations agreeing on
payload, marker and occurrence policy and both having a mode other than
`after` behave identically. -/
theorem injectIntoHtml_mode_not_after {cfg cfg' : Config} (html : List Char)
    (hh : cfg.INJECT_HTML = cfg'.INJECT_HTML) (ht : cfg.INJECT_TARGET = cfg'.INJECT_TARGET)
    (ho : cfg.INJECT_ONCE = cfg'.INJECT_ONCE)
    (hm : cfg.INJECT_MODE ≠ ("after").data) (hm' : cfg'.INJECT_MODE ≠ ("after").data) :
    injectIntoHtml cfg html = injectIntoHtml cfg' html := by
  obtain ⟨ih1, it1, im1, io1, ic1, ii1⟩ := cfg
  obtain ⟨ih2, it2, im2, io2, ic2, ii2⟩ := cfg'
  simp only at hh ht ho hm hm'
  subst hh; subst ht; subst ho
  simp only [injectIntoHtml, if_neg hm, if_neg hm']

/-- C1: for every body, the injector is a no-op returning the body with
`changed = false` whenever the resolved payload is empty or blank, the
resolved marker is the empty string (which can in fact never happen: an
empty `INJECT_TARGET` environment value falls back to `</head>`), or the
marker does not occur in the body. -/
theorem claim_C1_injector_noop (e : Env) (html : List Char)
    (h : jsTrim (Config.ofEnv e).INJECT_HTML = [] ∨
         (Config.ofEnv e).INJECT_TARGET = [] ∨
         jsIncludes html (Config.ofEnv e).INJECT_TARGET = false) :
    injectIntoHtml (Config.ofEnv e) html = ⟨html, false⟩ := by
  rcases h with h1 | h2 | h3
  · rw [injectIntoHtml, if_pos h1]
  · exact absurd h2 (ofEnv_INJECT_TARGET_ne_nil e)
  · by_cases h1 : jsTrim (Config.ofEnv e).INJECT_HTML = []
    · rw [injectIntoHtml, if_pos h1]
    · rw [injectIntoHtml, if_neg h1, if_pos h3]

/-- Witness for C1: a blank payload of one space on the body `x`. -/
theorem claim_C1_injector_noop_witness :
    injectIntoHtml (Config.ofEnv ⟨(" ").data, [], [], [], [], []⟩) (("x").data) =
      ⟨("x").data, false⟩ :=
  claim_C1_injector_noop ⟨(" ").data, [], [], [], [], []⟩ (("x").data) (Or.inl (by decide))

/-- C5: the `changed` flag equals the actual comparison of output and
input; in particular a replacement that reproduces the body verbatim
reports `changed = false`. -/
theorem claim_C5_changed_flag (cfg : Config) (html : List Char) :
    (injectIntoHtml cfg html).changed = true ↔ (injectIntoHtml cfg html).out ≠ html := by
  simp only [injectIntoHtml]
  split
  · simp
  split
  · simp
  split <;> simp

/-- C10: any placement-mode environment value whose lowercase form is
not exactly `after` makes the injector behave exactly as mode `before`
does (the function is total: no unrecognized mode is rejected). -/
theorem claim_C10_unknown_mode_before (e : Env) (html : List Char)
    (h : jsToLowerCase (jsOr e.INJECT_MODE (("before").data)) ≠ ("after").data) :
    injectIntoHtml (Config.ofEnv e) html =
      injectIntoHtml (Config.ofEnv { e with INJECT_MODE := ("before").data }) html := by
  refine injectIntoHtml_mode_not_after html rfl rfl rfl h ?_
  show jsToLowerCase (jsOr (("before").data) (("before").data)) ≠ ("after").data
  decide

/-- Witness for C10: the mode `AFTERWARDS` lowercases to `afterwards`,
which is not `after`, so it is treated as `before`. -/
theorem claim_C10_unknown_mode_before_witness :
    injectIntoHtml (Config.ofEnv ⟨[], [], ("AFTERWARDS").data, [], [], []⟩) (("a</head>b").data) =
      injectIntoHtml (Config.ofEnv ⟨[], [], ("before").data, [], [], []⟩) (("a</head>b").data) :=
  claim_C10_unknown_mode_before ⟨[], [], ("AFTERWARDS").data, [], [], []⟩ (("a</head>b").data)
    (by decide)

/-- The insertion unit contains no dollar sign when neither marker nor
payload does. -/
theorem dollar_not_mem_unit {m p : List Char} (hdm : '$' ∉ m) (hdp : '$' ∉ p)
    (mode : List Char) :
    '$' ∉ (if mode = ("after").data then m ++ p else p ++ m) := by
  split <;> (intro hmem; rcases List.mem_append.mp hmem with h | h)
  · exact hdm h
  · exact hdp h
  · exact hdp h
  · exact hdm h

/-- Unfolding `injectIntoHtml` on the `INJECT_ONCE = true` branch when
the payload is not blank and the marker occurs. -/
theorem injectIntoHtml_once_eq {p m mode ct ih body : List Char}
    (hp : jsTrim p ≠ []) (hinc : jsIncludes body m = true) :
    injectIntoHtml ⟨p, m, mode, true, ct, ih⟩ body =
      ⟨jsReplace body m (if mode = ("after").data then m ++ p else p ++ m),
       decide (jsReplace body m (if mode = ("after").data then m ++ p else p ++ m) ≠ body)⟩ := by
  rw [injectIntoHtml, if_neg hp, if_neg (by simp [hinc])]
  rfl

/-- Unfolding `injectIntoHtml` on the `INJECT_ONCE = false` branch when
the payload is not blank and the marker occurs. -/
theorem injectIntoHtml_all_eq {p m mode ct ih body : List Char}
    (hp : jsTrim p ≠ []) (hinc : jsIncludes body m = true) :
    injectIntoHtml ⟨p, m, mode, false, ct, ih⟩ body =
      ⟨List.intercalate (if mode = ("after").data then m ++ p else p ++ m) (jsSplit body m),
       decide (List.intercalate (if mode = ("after").data then m ++ p else p ++ m)
         (jsSplit body m) ≠ body)⟩ := by
  rw [injectIntoHtml, if_neg hp, if_neg (by simp [hinc])]
  rfl

/-- C2 counterexample: the payload of one space is a non-empty string
and the marker occurs exactly twice, but with occurrence policy ALL the
injector replaces nothing at all (the blank payload short-circuits it),
so the claim as stated fails. -/
theorem claim_C2_counterexample :
    ((" ").data : List Char) ≠ [] ∧
    jsSplit (("x</head>y</head>z").data) (("</head>").data) =
      [("x").data, ("y").data, ("z").data] ∧
    injectIntoHtml ⟨(" ").data, ("</head>").data, ("before").data, false, [], []⟩
        (("x</head>y</head>z").data) =
      ⟨("x</head>y</head>z").data, false⟩ ∧
    (("x</head>y</head>z").data : List Char) ≠ ("x </head>y </head>z").data := by
  exact ⟨by decide, by decide, by decide, by decide⟩

/-- C2 amended: for a body in which the non-empty marker occurs exactly
twice, a payload that is not blank, and marker and payload free of the
dollar character, policy ALL replaces both occurrences with the insertion
unit and policy FIRST_ONLY replaces only the leftmost one, the second
marker instance remaining literally present. -/
theorem claim_C2_amended (m p a b c u mode ct ih body : List Char)
    (hm : m ≠ []) (hp : jsTrim p ≠ []) (hdm : '$' ∉ m) (hdp : '$' ∉ p)
    (hu : u = if mode = ("after").data then m ++ p else p ++ m)
    (hsplit : jsSplit body m = [a, b, c]) :
    (injectIntoHtml ⟨p, m, mode, false, ct, ih⟩ body).out = a ++ u ++ b ++ u ++ c ∧
    (injectIntoHtml ⟨p, m, mode, true, ct, ih⟩ body).out = a ++ u ++ (b ++ m ++ c) := by
  have hps : ([b, c] : List (List Char)) ≠ [] := by simp
  have hinc := jsIncludes_true_of_split hm hsplit hps
  have hdu : '$' ∉ u := hu ▸ dollar_not_mem_unit hdm hdp mode
  constructor
  · rw [injectIntoHtml_all_eq hp hinc]
    dsimp only
    rw [← hu, hsplit, intercalate_cons u a (by simp), intercalate_cons u b (by simp),
        intercalate_single]
    simp [List.append_assoc]
  · rw [injectIntoHtml_once_eq hp hinc]
    dsimp only
    rw [← hu, jsReplace_of_split hm hsplit hps hdu, intercalate_cons m b (by simp),
        intercalate_single]

/-- Witness for the amended C2 at marker `</head>`, payload `X`, mode
`before`, body `1</head>2</head>3`. -/
theorem claim_C2_amended_witness :
    (injectIntoHtml ⟨("X").data, ("</head>").data, ("before").data, false, [], []⟩
        (("1</head>2</head>3").data)).out =
      ("1").data ++ ("X</head>").data ++ ("2").data ++ ("X</head>").data ++ ("3").data ∧
    (injectIntoHtml ⟨("X").data, ("</head>").data, ("before").data, true, [], []⟩
        (("1</head>2</head>3").data)).out =
      ("1").data ++ ("X</head>").data ++ (("2").data ++ ("</head>").data ++ ("3").data) :=
  claim_C2_amended (("</head>").data) (("X").data) (("1").data) (("2").data) (("3").data)
    (("X</head>").data) (("before").data) [] [] (("1</head>2</head>3").data)
    (by decide) (by decide) (by decide) (by decide) (by decide) (by decide)

/-- C3 counterexample: with payload `$&` (a legal raw-HTML value), marker
`</head>`, default placement BEFORE and default FIRST_ONLY policy, the
text inserted by `String.replace` is not the insertion unit
`$&</head>`: the `$&` substitution pattern expands to the matched
marker, so the output duplicates the marker instead of containing the
payload before it. -/
theorem claim_C3_counterexample :
    (injectIntoHtml ⟨("$&").data, ("</head>").data, ("before").data, true, [], []⟩
        (("a</head>b").data)).out = ("a</head></head>b").data ∧
    (injectIntoHtml ⟨("$&").data, ("</head>").data, ("before").data, true, [], []⟩
        (("a</head>b").data)).out ≠ ("a$&</head>b").data := by
  exact ⟨by decide, by decide⟩

/-- C3 amended: for a body in which the non-empty marker occurs, a
non-blank payload, and marker and payload free of the dollar character,
the replaced text is exactly the insertion unit (`marker ++ payload` for
placement AFTER, `payload ++ marker` otherwise): FIRST_ONLY yields the
first piece, the unit, then the untouched remainder, and ALL interleaves
the unit at every occurrence. -/
theorem claim_C3_amended (m p u a body : List Char) (ps : List (List Char))
    (mode ct ih : List Char)
    (hm : m ≠ []) (hp : jsTrim p ≠ []) (hdm : '$' ∉ m) (hdp : '$' ∉ p)
    (hu : u = if mode = ("after").data then m ++ p else p ++ m)
    (hsplit : jsSplit body m = a :: ps) (hps : ps ≠ []) :
    (injectIntoHtml ⟨p, m, mode, true, ct, ih⟩ body).out = a ++ u ++ List.intercalate m ps ∧
    (injectIntoHtml ⟨p, m, mode, false, ct, ih⟩ body).out = List.intercalate u (a :: ps) := by
  have hinc := jsIncludes_true_of_split hm hsplit hps
  have hdu : '$' ∉ u := hu ▸ dollar_not_mem_unit hdm hdp mode
  constructor
  · rw [injectIntoHtml_once_eq hp hinc]
    dsimp only
    rw [← hu, jsReplace_of_split hm hsplit hps hdu]
  · rw [injectIntoHtml_all_eq hp hinc]
    dsimp only
    rw [← hu, hsplit]

/-- Witness for the amended C3 at marker `</head>`, payload `P`, mode
`after`, body `x</head>y`. -/
theorem claim_C3_amended_witness :
    (injectIntoHtml ⟨("P").data, ("</head>").data, ("after").data, true, [], []⟩
        (("x</head>y").data)).out =
      ("x").data ++ ("</head>P").data ++ List.intercalate (("</head>").data) [("y").data] ∧
    (injectIntoHtml ⟨("P").data, ("</head>").data, ("after").data, false, [], []⟩
        (("x</head>y").data)).out =
      List.intercalate (("</head>P").data) [("x").data, ("y").data] :=
  claim_C3_amended (("</head>").data) (("P").data) (("</head>P").data) (("x").data)
    (("x</head>y").data) [("y").data] (("after").data) [] []
    (by decide) (by decide) (by decide) (by decide) (by decide) (by decide) (by simp)

/-- C4 counterexample: the marker occurs exactly once, yet FIRST_ONLY
(via `String.replace`, which interprets `$&` in the replacement) and ALL
(via `split`/`join`, which is literal) give different outputs for the
payload `$&`. -/
theorem claim_C4_counterexample :
    jsSplit (("a</head>b").data) (("</head>").data) = [("a").data, ("b").data] ∧
    (injectIntoHtml ⟨("$&").data, ("</head>").data, ("before").data, true, [], []⟩
        (("a</head>b").data)).out ≠
      (injectIntoHtml ⟨("$&").data, ("</head>").data, ("before").data, false, [], []⟩
        (("a</head>b").data)).out := by
  exact ⟨by decide, by decide⟩

/-- C4 amended: on bodies containing the non-empty marker exactly once,
FIRST_ONLY and ALL produce identical results for every payload and
placement mode, provided neither marker nor payload contains the dollar
character. -/
theorem claim_C4_amended (m p mode ct ih a b body : List Char)
    (hm : m ≠ []) (hdm : '$' ∉ m) (hdp : '$' ∉ p)
    (hsplit : jsSplit body m = [a, b]) :
    injectIntoHtml ⟨p, m, mode, true, ct, ih⟩ body =
      injectIntoHtml ⟨p, m, mode, false, ct, ih⟩ body := by
  by_cases hp : jsTrim p = []
  · rw [injectIntoHtml, if_pos hp, injectIntoHtml, if_pos hp]
  · have hps : ([b] : List (List Char)) ≠ [] := by simp
    have hinc := jsIncludes_true_of_split hm hsplit hps
    have hdu := dollar_not_mem_unit hdm hdp mode
    rw [injectIntoHtml_once_eq hp hinc, injectIntoHtml_all_eq hp hinc]
    have hout : jsReplace body m (if mode = ("after").data then m ++ p else p ++ m) =
        List.intercalate (if mode = ("after").data then m ++ p else p ++ m) (jsSplit body m) := by
      rw [jsReplace_of_split hm hsplit hps hdu, hsplit,
          intercalate_cons _ a hps, intercalate_single, intercalate_single]
    rw [hout]

/-- Witness for the amended C4 at marker `</head>`, payload `Q`, mode
`after`, body `u</head>v`. -/
theorem claim_C4_amended_witness :
    injectIntoHtml ⟨("Q").data, ("</head>").data, ("after").data, true, [], []⟩
        (("u</head>v").data) =
      injectIntoHtml ⟨("Q").data, ("</head>").data, ("after").data, false, [], []⟩
        (("u</head>v").data) :=
  claim_C4_amended (("</head>").data) (("Q").data) (("after").data) [] [] (("u").data)
    (("v").data) (("u</head>v").data) (by decide) (by decide) (by decide) (by decide)

/-- JavaScript `v || ""` is `v`. -/
theorem jsOr_nil (v : List Char) : jsOr v [] = v := by
  rw [jsOr]
  split
  · rename_i hv; rw [hv]
  · rfl

/-- C6: with a non-empty content-type filter configured, a response whose
content-type header does not contain the filter as a case-insensitive
substring is forwarded unmodified (body and headers untouched, so the
injector observably never ran); and the match really is substring-based:
the default filter `text/html` matches `text/html; charset=utf-8`. -/
theorem claim_C6_content_type_filter :
    (∀ (e : Env) (headers : HeaderMap) (buffer : List Char),
        (Config.ofEnv e).CT_MATCH ≠ [] →
        jsIncludes (jsToLowerCase ((List.lookup (("content-type").data) headers).getD []))
            (Config.ofEnv e).CT_MATCH = false →
        interceptorBody (Config.ofEnv e) false headers buffer = (buffer, headers)) ∧
    jsIncludes (jsToLowerCase (("text/html; charset=utf-8").data))
        (jsToLowerCase (("text/html").data)) = true := by
  constructor
  · intro e headers buffer h1 h2
    simp only [interceptorBody]
    split
    · rename_i hsk; exact absurd hsk (by decide)
    · rw [if_pos ⟨h1, h2⟩]
  · decide

/-- Witness for C6: default configuration against an
`application/json` response whose body even contains the marker. -/
theorem claim_C6_content_type_filter_witness :
    interceptorBody (Config.ofEnv ⟨[], [], [], [], [], []⟩) false
        [((("content-type").data), (("application/json").data))] (("x</head>y").data) =
      ((("x</head>y").data), [((("content-type").data), (("application/json").data))]) :=
  claim_C6_content_type_filter.1 ⟨[], [], [], [], [], []⟩
    [((("content-type").data), (("application/json").data))] (("x</head>y").data)
    (by decide) (by decide)

/-- C7: with a non-empty required-header name configured, the check
passes exactly when some response header name matches the configured
name case-insensitively; the check reads only the header names, never
the values; and when it fails the response is forwarded unmodified. -/
theorem claim_C7_required_header (e : Env) (headers : HeaderMap) (buffer : List Char)
    (h : (Config.ofEnv e).INJECT_IF_HEADER ≠ []) :
    (((headers.map (fun p => jsToLowerCase p.1)).contains
        (Config.ofEnv e).INJECT_IF_HEADER = true) ↔
      ∃ q ∈ headers, jsToLowerCase q.1 = jsToLowerCase e.INJECT_IF_HEADER) ∧
    (∀ headers2 : HeaderMap, headers.map Prod.fst = headers2.map Prod.fst →
      (headers.map (fun p => jsToLowerCase p.1)).contains (Config.ofEnv e).INJECT_IF_HEADER =
        (headers2.map (fun p => jsToLowerCase p.1)).contains
          (Config.ofEnv e).INJECT_IF_HEADER) ∧
    ((headers.map (fun p => jsToLowerCase p.1)).contains
        (Config.ofEnv e).INJECT_IF_HEADER = false →
      interceptorBody (Config.ofEnv e) false headers buffer = (buffer, headers)) := by
  have hkey : (Config.ofEnv e).INJECT_IF_HEADER = jsToLowerCase e.INJECT_IF_HEADER := by
    show jsToLowerCase (jsOr e.INJECT_IF_HEADER []) = _
    rw [jsOr_nil]
  refine ⟨?_, ?_, ?_⟩
  · rw [hkey]
    constructor
    · intro hc
      obtain ⟨q, hq, hfq⟩ := List.mem_map.mp (List.elem_iff.mp hc)
      exact ⟨q, hq, hfq⟩
    · intro hex
      obtain ⟨q, hq, hfq⟩ := hex
      exact List.elem_iff.mpr (List.mem_map.mpr ⟨q, hq, hfq⟩)
  · intro headers2 hnames
    have hmaps : headers.map (fun p => jsToLowerCase p.1) =
        headers2.map (fun p => jsToLowerCase p.1) := by
      have h1 : headers.map (fun p => jsToLowerCase p.1) =
          (headers.map Prod.fst).map jsToLowerCase := by rw [List.map_map]; rfl
      have h2 : headers2.map (fun p => jsToLowerCase p.1) =
          (headers2.map Prod.fst).map jsToLowerCase := by rw [List.map_map]; rfl
      rw [h1, h2, hnames]
    rw [hmaps]
  · intro hc
    simp only [interceptorBody]
    split
    · rename_i hsk; exact absurd hsk (by decide)
    · split
      · rfl
      · rw [if_pos ⟨h, hc⟩]

/-- Witness for C7: required header `X-Req` configured, response lacking
it (case-insensitively), body containing the marker — passed through. -/
theorem claim_C7_required_header_witness :
    interceptorBody (Config.ofEnv ⟨[], [], [], [], [], ("X-Req").data⟩) false
        [((("content-type").data), (("text/html").data))] (("x</head>y").data) =
      ((("x</head>y").data), [((("content-type").data), (("text/html").data))]) :=
  (claim_C7_required_header ⟨[], [], [], [], [], ("X-Req").data⟩
    [((("content-type").data), (("text/html").data))] (("x</head>y").data)
    (by decide)).2.2 (by decide)

/-- C8: a request whose path matches at least one exclusion pattern has
its response forwarded with body and headers untouched, regardless of
content type, marker presence or any other configuration; the skip
decision is the request-time `isExcludedPath` result threaded into the
response phase. -/
theorem claim_C8_excluded_passthrough (cfg : Config) (patterns : List (List Char → Bool))
    (url : List Char) (headers : HeaderMap) (buffer : List Char)
    (h : ∃ rx ∈ patterns, rx url = true) :
    handleResponse cfg patterns url headers buffer = (buffer, headers) := by
  have hskip : isExcludedPath patterns url = true := by
    rw [isExcludedPath]
    exact List.any_eq_true.mpr h
  rw [handleResponse, hskip, interceptorBody, if_pos rfl]

/-- Witness for C8: the default first exclusion pattern (paths starting
with `/wp-admin`) on `/wp-admin/edit.php`, with an eligible content type
and a marker in the body. -/
theorem claim_C8_excluded_passthrough_witness :
    handleResponse (Config.ofEnv ⟨[], [], [], [], [], []⟩)
        [fun p => List.isPrefixOf (("/wp-admin").data) p] (("/wp-admin/edit.php").data)
        [((("content-type").data), (("text/html").data))] (("<html></head></html>").data) =
      ((("<html></head></html>").data),
       [((("content-type").data), (("text/html").data))]) :=
  claim_C8_excluded_passthrough (Config.ofEnv ⟨[], [], [], [], [], []⟩)
    [fun p => List.isPrefixOf (("/wp-admin").data) p] (("/wp-admin/edit.php").data)
    [((("content-type").data), (("text/html").data))] (("<html></head></html>").data)
    ⟨fun p => List.isPrefixOf (("/wp-admin").data) p, List.mem_singleton.mpr rfl, by decide⟩

/-- C9: once the skip flag and both eligibility filters have let the
response through, an injection reporting `changed = true` makes the
interceptor return the mutated body with `content-length` overwritten by
the decimal UTF-8 byte length of that body (byte length, not character
count: the one-character string `é` occupies two bytes), and an
injection reporting `changed = false` makes it forward the original body
and headers verbatim. -/
theorem claim_C9_content_length (cfg : Config) (headers : HeaderMap) (buffer : List Char)
    (hct : ¬(cfg.CT_MATCH ≠ [] ∧
      jsIncludes (jsToLowerCase ((List.lookup (("content-type").data) headers).getD []))
        cfg.CT_MATCH = false))
    (hih : ¬(cfg.INJECT_IF_HEADER ≠ [] ∧
      ((headers.map (fun p => jsToLowerCase p.1)).contains cfg.INJECT_IF_HEADER) = false)) :
    ((injectIntoHtml cfg buffer).changed = true →
       interceptorBody cfg false headers buffer =
         ((injectIntoHtml cfg buffer).out,
          jsSetHeader headers (("content-length").data)
            ((Nat.repr (utf8ByteLength (injectIntoHtml cfg buffer).out)).data)) ∧
       List.lookup (("content-length").data) (interceptorBody cfg false headers buffer).2 =
         some ((Nat.repr (utf8ByteLength (injectIntoHtml cfg buffer).out)).data)) ∧
    ((injectIntoHtml cfg buffer).changed = false →
       interceptorBody cfg false headers buffer = (buffer, headers)) ∧
    utf8ByteLength (("é").data) = 2 ∧ ((("é").data) : List Char).length = 1 := by
  have hbody : interceptorBody cfg false headers buffer =
      (if (injectIntoHtml cfg buffer).changed = false then (buffer, headers)
       else ((injectIntoHtml cfg buffer).out,
         jsSetHeader headers (("content-length").data)
           ((Nat.repr (utf8ByteLength (injectIntoHtml cfg buffer).out)).data))) := by
    simp only [interceptorBody]
    split
    · rename_i hsk; exact absurd hsk (by decide)
    · rfl
  refine ⟨?_, ?_, by decide, by decide⟩
  · intro hch
    have hne : ¬((injectIntoHtml cfg buffer).changed = false) := by simp [hch]
    rw [hbody, if_neg hne]
    exact ⟨rfl, lookup_jsSetHeader headers _ _⟩
  · intro hch
    rw [hbody, if_pos hch]

/-- Witness for C9: marker `</head>`, multi-byte payload `é`, body
`a</head>`; the mutated body `aé</head>` has 9 characters but 10 bytes,
and `content-length` reads back its decimal byte length. -/
theorem claim_C9_content_length_witness :
    interceptorBody ⟨("é").data, ("</head>").data, ("before").data, true,
        ("text/html").data, []⟩ false
        [((("content-type").data), (("text/html").data))] (("a</head>").data) =
      ((injectIntoHtml ⟨("é").data, ("</head>").data, ("before").data, true,
          ("text/html").data, []⟩ (("a</head>").data)).out,
       jsSetHeader [((("content-type").data), (("text/html").data))] (("content-length").data)
         ((Nat.repr (utf8ByteLength (injectIntoHtml ⟨("é").data, ("</head>").data,
           ("before").data, true, ("text/html").data, []⟩ (("a</head>").data)).out)).data)) ∧
    List.lookup (("content-length").data)
        (interceptorBody ⟨("é").data, ("</head>").data, ("before").data, true,
          ("text/html").data, []⟩ false
          [((("content-type").data), (("text/html").data))] (("a</head>").data)).2 =
      some ((Nat.repr (utf8ByteLength (injectIntoHtml ⟨("é").data, ("</head>").data,
        ("before").data, true, ("text/html").data, []⟩ (("a</head>").data)).out)).data) :=
  (claim_C9_content_length ⟨("é").data, ("</head>").data, ("before").data, true,
      ("text/html").data, []⟩
    [((("content-type").data), (("text/html").data))] (("a</head>").data)
    (by decide) (by decide)).1 (by decide)
